import Mathlib

/-!
Verification of the QuantumSecureDNA repository's two deterministic algorithms:
the heuristic phishing-content scorer (`evaluatePhishingContent` in the web
scraper module) and the DNA base-cipher codec described in the design spec.
Text is modelled as `List Char`; JS `null`/`undefined` inputs as `Option`.
-/

namespace QuantumSecureDNA

/-! ### The scorer (src/unnamed/part_001, lines 194-238) -/

/-- Substring containment, modelling JavaScript `String.prototype.includes`:
`hasSubstr pat t` is true iff `pat` occurs contiguously inside `t`. -/
def hasSubstr (pat : List Char) : List Char → Bool
  | [] => pat.isPrefixOf []
  | c :: rest => pat.isPrefixOf (c :: rest) || hasSubstr pat rest

/-- JavaScript `toLowerCase`, restricted to per-character lowering (all
configured keywords and phrases are ASCII, for which this is exact). -/
def jsToLower (t : List Char) : List Char := t.map Char.toLower

/-- The fixed keyword list of `evaluatePhishingContent`
(src/unnamed/part_001, lines 201-205). -/
def phishingKeywords : List (List Char) :=
  [ "password".toList, "login".toList, "account".toList, "verify".toList,
    "confirm".toList, "update".toList, "security".toList, "banking".toList,
    "payment".toList, "urgent".toList, "alert".toList, "suspended".toList,
    "unusual".toList, "activity".toList, "authenticate".toList,
    "limited".toList, "access".toList ]

/-- The fixed phrase list of `evaluatePhishingContent`
(src/unnamed/part_001, lines 218-222). -/
def phishingPhrases : List (List Char) :=
  [ "verify your account".toList, "confirm your password".toList,
    "update your information".toList, "security alert".toList,
    "account suspended".toList, "unusual activity".toList,
    "limited access".toList, "click here to login".toList,
    "verify identity".toList, "prompt action required".toList ]

/-- Indicator string pushed for a matched keyword
(src/unnamed/part_001, line 213). -/
def kwIndicator (k : List Char) : List Char :=
  "Conține cuvântul \"".toList ++ k ++ "\"".toList

/-- Indicator string pushed for a matched phrase
(src/unnamed/part_001, line 227). -/
def phraseIndicator (p : List Char) : List Char :=
  "Conține fraza suspectă \"".toList ++ p ++ "\"".toList

/-- The scorer `evaluatePhishingContent` (src/unnamed/part_001, lines 194-238)
restricted to string arguments: the `if (!text)` guard on the empty string,
then two `forEach` accumulation passes (keywords +5, phrases +10), the
`Math.min(score, 100)` clamp and the `indicators.slice(0, 5)` truncation. -/
def evaluatePhishingContent (text : List Char) : Nat × List (List Char) :=
  if text = [] then (0, [])
  else
    let textLower := jsToLower text
    let afterKeywords := phishingKeywords.foldl
      (fun acc k =>
        if hasSubstr k textLower then (acc.1 + 5, acc.2 ++ [kwIndicator k])
        else acc)
      (0, [])
    let afterPhrases := phishingPhrases.foldl
      (fun acc p =>
        if hasSubstr p textLower then (acc.1 + 10, acc.2 ++ [phraseIndicator p])
        else acc)
      afterKeywords
    (min afterPhrases.1 100, afterPhrases.2.take 5)

/-- `evaluatePhishingContent` over the full JavaScript argument domain:
`none` stands for the null-equivalent inputs (`null`, `undefined`), which the
`if (!text)` guard sends to the same `(0, [])` branch as the empty string. -/
def evaluatePhishingContentJS : Option (List Char) → Nat × List (List Char)
  | none => (0, [])
  | some t => evaluatePhishingContent t

/-- Keywords matched against the lower-cased text, in configured list order. -/
def matchedKeywords (text : List Char) : List (List Char) :=
  phishingKeywords.filter (fun k => hasSubstr k (jsToLower text))

/-- Phrases matched against the lower-cased text, in configured list order. -/
def matchedPhrases (text : List Char) : List (List Char) :=
  phishingPhrases.filter (fun p => hasSubstr p (jsToLower text))

/-- Full indicator list in discovery order: keywords scanned before phrases,
each in configured list order, prior to the `slice(0, 5)` truncation. -/
def allIndicators (text : List Char) : List (List Char) :=
  (matchedKeywords text).map kwIndicator ++ (matchedPhrases text).map phraseIndicator

/-! ### The Base-Cipher Codec

The backend implementation of the DNA codec (the Flask handlers behind
/api/dna_encrypt and /api/dna_decrypt in app_flask.py) is not part of the
source tree; the codec is therefore modelled from spec §4.1. -/

/-- Modelled from the spec: the 4-symbol alphabet \x7bA, C, G, T\x7d of the
Base-Cipher Codec (spec §3), whose backend implementation (app_flask.py) is
missing from the source tree. Each symbol represents exactly 2 bits. -/
inductive Base : Type
  | A
  | C
  | G
  | T
  deriving DecidableEq

/-- Modelled from the spec: the DNA-XOR table of §4.1 (the codec backend is
missing from the source tree), transcribed rule by rule: equal symbols give A;
the pairs \x7bA,T\x7d and \x7bC,G\x7d give T; the pairs \x7bA,C\x7d and
\x7bG,T\x7d give C; all remaining pairs give G. -/
def dnaXor (x y : Base) : Base :=
  if x = y then Base.A
  else if (x = Base.A ∧ y = Base.T) ∨ (x = Base.T ∧ y = Base.A)
      ∨ (x = Base.C ∧ y = Base.G) ∨ (x = Base.G ∧ y = Base.C) then Base.T
  else if (x = Base.A ∧ y = Base.C) ∨ (x = Base.C ∧ y = Base.A)
      ∨ (x = Base.G ∧ y = Base.T) ∨ (x = Base.T ∧ y = Base.G) then Base.C
  else Base.G

/-- Modelled from the spec: the 2-bit-group-to-symbol map 00→A, 01→C, 10→G,
11→T of §3 (codec backend missing from the source tree). -/
def baseOfBits : Nat → Base
  | 0 => Base.A
  | 1 => Base.C
  | 2 => Base.G
  | _ => Base.T

/-- Numeric value of a symbol's 2-bit group, the inverse direction of
`baseOfBits`. -/
def baseVal : Base → Nat
  | Base.A => 0
  | Base.C => 1
  | Base.G => 2
  | Base.T => 3

/-- Modelled from the spec: §4.1 step 1-2, one byte (code point 0-255) split
most-significant pair first into four consecutive 2-bit groups, each mapped to
a symbol (codec backend missing from the source tree). -/
def byteToSyms (b : Nat) : List Base :=
  [baseOfBits (b / 64 % 4), baseOfBits (b / 16 % 4),
   baseOfBits (b / 4 % 4), baseOfBits (b % 4)]

/-- Key symbol at position `i`: the key reused cyclically, index modulo key
length (spec §3). The default for the empty key is never reached, since both
operations reject an empty key first. -/
def keyAt (key : List Base) (i : Nat) : Base :=
  key.getD (i % key.length) Base.A

/-- Modelled from the spec: §4.1 step 4, combining position `i` of the plain
symbol sequence with `key[i mod len(key)]` via the DNA-XOR table (codec
backend missing from the source tree). -/
def applyKey (key : List Base) : Nat → List Base → List Base
  | _, [] => []
  | i, s :: rest => dnaXor s (keyAt key i) :: applyKey key (i + 1) rest

/-- Modelled from the spec: the error taxonomy of §7 (codec backend missing
from the source tree): `InvalidKey` for an empty key, `MalformedSequence` for
decode input holding symbols outside the 4-letter alphabet. -/
inductive CodecError : Type
  | InvalidKey
  | MalformedSequence
  deriving DecidableEq

/-- Character printed for a symbol, connecting the typed alphabet to the
character sequences the codec exchanges. -/
def charOfBase : Base → Char
  | Base.A => 'A'
  | Base.C => 'C'
  | Base.G => 'G'
  | Base.T => 'T'

/-- Parse of one sequence character; characters outside \x7bA, C, G, T\x7d
have no parse and trigger `MalformedSequence` in `decode`. -/
def baseOfChar (c : Char) : Option Base :=
  if c = 'A' then some Base.A
  else if c = 'C' then some Base.C
  else if c = 'G' then some Base.G
  else if c = 'T' then some Base.T
  else none

/-- Parse of a whole sequence, failing on the first out-of-alphabet symbol. -/
def parseSeq : List Char → Option (List Base)
  | [] => some []
  | c :: rest =>
    match baseOfChar c, parseSeq rest with
    | some b, some bs => some (b :: bs)
    | _, _ => none

/-- Modelled from the spec: `encode(text, key)` of §4.1 (codec backend missing
from the source tree). Text is a sequence of code points; an empty key fails
with `InvalidKey`; otherwise each byte becomes four symbols, each combined
with the cyclically reused key via DNA-XOR. -/
def encode (text : List Nat) (key : List Base) : Except CodecError (List Char) :=
  if key = [] then Except.error CodecError.InvalidKey
  else Except.ok ((applyKey key 0 (text.flatMap byteToSyms)).map charOfBase)

/-- Modelled from the spec: reassembly of four consecutive plain symbols into
one code point, most-significant pair first (§4.1 decode, codec backend
missing from the source tree). Symbols beyond the last complete group of four
are dropped by `decode` before this runs. -/
def groupToBytes : List Base → List Nat
  | a :: b :: c :: d :: rest =>
    (64 * baseVal a + 16 * baseVal b + 4 * baseVal c + baseVal d)
      :: groupToBytes rest
  | _ => []

/-- Modelled from the spec: `decode(sequence, key)` of §4.1 (codec backend
missing from the source tree). An empty key fails with `InvalidKey`; trailing
symbols beyond the last complete group of four are silently dropped; an
out-of-alphabet symbol fails with `MalformedSequence`; otherwise the same
DNA-XOR pass recovers the plain symbols, regrouped into code points. -/
def decode (seq : List Char) (key : List Base) : Except CodecError (List Nat) :=
  if key = [] then Except.error CodecError.InvalidKey
  else
    let trimmed := seq.take (4 * (seq.length / 4))
    match parseSeq trimmed with
    | none => Except.error CodecError.MalformedSequence
    | some syms => Except.ok (groupToBytes (applyKey key 0 syms))

/-! ### Characterization of the scorer's accumulation loops -/

theorem foldl_scan_eq (tl : List Char) (w : Nat) (mk : List Char → List Char)
    (entries : List (List Char)) (n : Nat) (inds : List (List Char)) :
    entries.foldl
        (fun acc e =>
          if hasSubstr e tl then (acc.1 + w, acc.2 ++ [mk e]) else acc)
        (n, inds)
      = (n + w * (entries.filter (fun e => hasSubstr e tl)).length,
         inds ++ (entries.filter (fun e => hasSubstr e tl)).map mk) := by
  induction entries generalizing n inds with
  | nil => simp
  | cons e rest ih =>
    by_cases h : hasSubstr e tl
    · simp only [List.foldl_cons, h, if_true, List.filter_cons_of_pos,
        List.length_cons, List.map_cons, ih, Prod.mk.injEq]
      exact ⟨by ring, by simp⟩
    · simp [h, ih, List.filter_cons]

theorem evaluatePhishingContent_eq (text : List Char) :
    evaluatePhishingContent text
      = (min (5 * (matchedKeywords text).length
              + 10 * (matchedPhrases text).length) 100,
         (allIndicators text).take 5) := by
  by_cases h : text = []
  · subst h
    decide
  · simp only [evaluatePhishingContent, h, if_false,
      matchedKeywords, matchedPhrases, allIndicators, foldl_scan_eq]
    simp [matchedKeywords, matchedPhrases]

/-! ### Substring monotonicity under concatenation -/

theorem hasSubstr_iff_occurs (pat t : List Char) :
    hasSubstr pat t = true ↔ pat <:+: t := by
  induction t with
  | nil => simp [hasSubstr, List.isPrefixOf_iff_prefix]
  | cons c rest ih =>
    simp [hasSubstr, List.isPrefixOf_iff_prefix, ih, List.infix_cons_iff]

theorem hasSubstr_append_right (pat t u : List Char)
    (h : hasSubstr pat t = true) : hasSubstr pat (t ++ u) = true := by
  rw [hasSubstr_iff_occurs] at h ⊢
  exact h.trans (List.prefix_append t u).isInfix

theorem hasSubstr_append_left (pat t u : List Char)
    (h : hasSubstr pat t = true) : hasSubstr pat (u ++ t) = true := by
  rw [hasSubstr_iff_occurs] at h ⊢
  exact h.trans (List.suffix_append u t).isInfix

theorem filter_length_mono {α : Type} (l : List α) (p q : α → Bool)
    (h : ∀ a, p a = true → q a = true) :
    (l.filter p).length ≤ (l.filter q).length := by
  induction l with
  | nil => exact le_refl _
  | cons a rest ih =>
    rw [List.filter_cons, List.filter_cons]
    by_cases hp : p a = true
    · rw [if_pos hp, if_pos (h a hp)]
      simpa using ih
    · rw [if_neg hp]
      by_cases hq : q a = true
      · rw [if_pos hq]
        exact le_trans ih (by simp)
      · rw [if_neg hq]
        exact ih

theorem matchedKeywords_append_right (T u : List Char) :
    (matchedKeywords T).length ≤ (matchedKeywords (T ++ u)).length := by
  unfold matchedKeywords jsToLower
  rw [List.map_append]
  exact filter_length_mono _ _ _
    (fun k hk => hasSubstr_append_right k _ _ hk)

theorem matchedKeywords_append_left (T u : List Char) :
    (matchedKeywords T).length ≤ (matchedKeywords (u ++ T)).length := by
  unfold matchedKeywords jsToLower
  rw [List.map_append]
  exact filter_length_mono _ _ _
    (fun k hk => hasSubstr_append_left k _ _ hk)

theorem matchedPhrases_append_right (T u : List Char) :
    (matchedPhrases T).length ≤ (matchedPhrases (T ++ u)).length := by
  unfold matchedPhrases jsToLower
  rw [List.map_append]
  exact filter_length_mono _ _ _
    (fun p hp => hasSubstr_append_right p _ _ hp)

theorem matchedPhrases_append_left (T u : List Char) :
    (matchedPhrases T).length ≤ (matchedPhrases (u ++ T)).length := by
  unfold matchedPhrases jsToLower
  rw [List.map_append]
  exact filter_length_mono _ _ _
    (fun p hp => hasSubstr_append_left p _ _ hp)

/-! ### Round-trip infrastructure for the codec -/

theorem dnaXor_cancel : ∀ p k : Base, dnaXor (dnaXor p k) k = p := by
  intro p k
  cases p <;> cases k <;> rfl

theorem applyKey_applyKey (key : List Base) :
    ∀ (i : Nat) (P : List Base), applyKey key i (applyKey key i P) = P := by
  intro i P
  induction P generalizing i with
  | nil => rfl
  | cons s rest ih => simp [applyKey, dnaXor_cancel, ih]

theorem length_applyKey (key : List Base) :
    ∀ (i : Nat) (P : List Base), (applyKey key i P).length = P.length := by
  intro i P
  induction P generalizing i with
  | nil => rfl
  | cons s rest ih => simp [applyKey, ih]

theorem parseSeq_map_charOfBase :
    ∀ l : List Base, parseSeq (l.map charOfBase) = some l := by
  intro l
  induction l with
  | nil => rfl
  | cons b rest ih =>
    have hb : baseOfChar (charOfBase b) = some b := by cases b <;> rfl
    simp [parseSeq, hb, ih]

theorem length_flatMap_byteToSyms (text : List Nat) :
    (text.flatMap byteToSyms).length = 4 * text.length := by
  induction text with
  | nil => rfl
  | cons b rest ih => simp [byteToSyms, ih]; ring

theorem baseVal_baseOfBits (v : Nat) (h : v < 4) : baseVal (baseOfBits v) = v := by
  interval_cases v <;> rfl

theorem symsVal_byteToSyms (b : Nat) (h : b < 256) :
    64 * baseVal (baseOfBits (b / 64 % 4)) + 16 * baseVal (baseOfBits (b / 16 % 4))
      + 4 * baseVal (baseOfBits (b / 4 % 4)) + baseVal (baseOfBits (b % 4)) = b := by
  rw [baseVal_baseOfBits _ (Nat.mod_lt _ (by norm_num)),
    baseVal_baseOfBits _ (Nat.mod_lt _ (by norm_num)),
    baseVal_baseOfBits _ (Nat.mod_lt _ (by norm_num)),
    baseVal_baseOfBits _ (Nat.mod_lt _ (by norm_num))]
  omega

theorem groupToBytes_flatMap (text : List Nat) (hb : ∀ b ∈ text, b < 256) :
    groupToBytes (text.flatMap byteToSyms) = text := by
  induction text with
  | nil => rfl
  | cons b rest ih =>
    have hlt : b < 256 := hb b (List.mem_cons_self b rest)
    have hrest : ∀ x ∈ rest, x < 256 := fun x hx => hb x (List.mem_cons_of_mem b hx)
    simp only [List.flatMap_cons, byteToSyms, List.cons_append, List.nil_append,
      groupToBytes, symsVal_byteToSyms b hlt]
    exact congrArg (List.cons b) (ih hrest)

/-! ### Claim theorems -/

/-- Claim C1: for every text, the scorer's result equals
min(5*k + 10*p, 100), where k is the number of configured keywords and p the
number of configured phrases occurring as substrings of the lower-cased text;
each keyword contributes 5, each phrase 10, clamped at 100. -/
theorem score_eq_clamped_weight_sum (text : List Char) :
    (evaluatePhishingContent text).1
      = min (5 * (matchedKeywords text).length
             + 10 * (matchedPhrases text).length) 100 := by
  rw [evaluatePhishingContent_eq]

/-- Claim C2 counterexample: scoring "Please verify your account now" does
not give 15 — the keywords "account" and "verify" and the phrase
"verify your account" all match, for a score of 20. -/
theorem score_verify_account_not_fifteen :
    (evaluatePhishingContent ("Please verify your account now".toList)).1 ≠ 15 := by
  decide

/-- Claim C2 (amended): scoring "Please verify your account now" gives
score 20, the keywords "account" and "verify" matching (+5 each) besides the
phrase "verify your account" (+10); the indicators are, in discovery order,
the keyword indicator for "account", the keyword indicator for "verify", then
the phrase indicator — keyword indicators precede the phrase indicator. -/
theorem score_verify_account_value :
    evaluatePhishingContent ("Please verify your account now".toList)
      = (20, [kwIndicator ("account".toList), kwIndicator ("verify".toList),
              phraseIndicator ("verify your account".toList)]) := by
  decide

/-- Claim C3: for every text of code points in 0-255 and every non-empty key
over the 4-symbol alphabet, decode(encode(text, key), key) recovers the
original text. -/
theorem dna_roundtrip (text : List Nat) (key : List Base)
    (hb : ∀ b ∈ text, b < 256) (hk : key ≠ []) :
    (encode text key).bind (fun s => decode s key) = Except.ok text := by
  rw [encode, if_neg hk]
  show decode ((applyKey key 0 (text.flatMap byteToSyms)).map charOfBase) key
      = Except.ok text
  have hlen : ((applyKey key 0 (text.flatMap byteToSyms)).map charOfBase).length
      = 4 * text.length := by
    rw [List.length_map, length_applyKey, length_flatMap_byteToSyms]
  have htrim : ((applyKey key 0 (text.flatMap byteToSyms)).map charOfBase).take
      (4 * (((applyKey key 0 (text.flatMap byteToSyms)).map charOfBase).length / 4))
      = (applyKey key 0 (text.flatMap byteToSyms)).map charOfBase := by
    apply List.take_of_length_le
    rw [hlen, Nat.mul_div_cancel_left _ (by norm_num : 0 < 4)]
  rw [decode, if_neg hk]
  simp only [htrim, parseSeq_map_charOfBase, applyKey_applyKey,
    groupToBytes_flatMap text hb]

/-- Witness for claim C3 at text [65] ("A") and key ACGT. -/
theorem dna_roundtrip_at_byte_A :
    (∀ b ∈ [(65 : Nat)], b < 256)
      ∧ ([Base.A, Base.C, Base.G, Base.T] ≠ ([] : List Base))
      ∧ (encode [65] [Base.A, Base.C, Base.G, Base.T]).bind
          (fun s => decode s [Base.A, Base.C, Base.G, Base.T])
        = Except.ok [65] :=
  ⟨by decide, by decide,
    dna_roundtrip [65] [Base.A, Base.C, Base.G, Base.T] (by decide) (by decide)⟩

/-- Claim C4: for every text, the score lies between 0 and 100. -/
theorem score_within_bounds (text : List Char) :
    0 ≤ (evaluatePhishingContent text).1
      ∧ (evaluatePhishingContent text).1 ≤ 100 := by
  refine ⟨Nat.zero_le _, ?_⟩
  rw [evaluatePhishingContent_eq]
  exact Nat.min_le_right _ _

/-- Claim C5: the scorer returns at most 5 indicators, and exactly the first
5 of the discovery-order list — keywords scanned before phrases, each in
configured list order; matches beyond the 5th change nothing. -/
theorem indicators_are_first_five (text : List Char) :
    (evaluatePhishingContent text).2 = (allIndicators text).take 5
      ∧ (evaluatePhishingContent text).2.length ≤ 5 := by
  rw [evaluatePhishingContent_eq]
  refine ⟨rfl, ?_⟩
  simp only [List.length_take]
  omega

/-- Claim C6: the scorer has no failure modes — the empty string and the
null-equivalent inputs all yield score 0 with no indicators, and the function
is total over its whole argument domain. -/
theorem empty_and_null_yield_zero :
    evaluatePhishingContentJS none = (0, [])
      ∧ evaluatePhishingContentJS (some []) = (0, [])
      ∧ evaluatePhishingContent [] = (0, []) :=
  ⟨rfl, rfl, rfl⟩

/-- Claim C7 counterexample: inserting a new occurrence of the configured
keyword "alert" inside "verify your account" (score 20, below the clamp)
destroys the phrase match and lowers the score to 15, so an arbitrary added
occurrence can decrease the score. -/
theorem keyword_insertion_can_decrease_score :
    ("alert".toList ∈ phishingKeywords)
      ∧ ("verify your account".toList = "verify y".toList ++ "our account".toList)
      ∧ (evaluatePhishingContent ("verify your account".toList)).1 < 100
      ∧ (evaluatePhishingContent
            ("verify y".toList ++ "alert".toList ++ "our account".toList)).1
        < (evaluatePhishingContent ("verify your account".toList)).1 := by
  refine ⟨by decide, by decide, by decide, by decide⟩

/-- Claim C7 (amended): adding an occurrence of a configured keyword or
phrase at either end of a text whose score is below the 100 clamp never
decreases the score; an occurrence inserted strictly inside the text can
decrease it by breaking an existing phrase match. -/
theorem append_occurrence_nondecreasing (T s : List Char)
    (hs : s ∈ phishingKeywords ∨ s ∈ phishingPhrases)
    (hlt : (evaluatePhishingContent T).1 < 100) :
    (evaluatePhishingContent T).1 ≤ (evaluatePhishingContent (T ++ s)).1
      ∧ (evaluatePhishingContent T).1 ≤ (evaluatePhishingContent (s ++ T)).1 := by
  rw [evaluatePhishingContent_eq, evaluatePhishingContent_eq,
    evaluatePhishingContent_eq]
  constructor
  · have h1 := matchedKeywords_append_right T s
    have h2 := matchedPhrases_append_right T s
    exact min_le_min (by omega) (le_refl _)
  · have h1 := matchedKeywords_append_left T s
    have h2 := matchedPhrases_append_left T s
    exact min_le_min (by omega) (le_refl _)

/-- Witness for claim C7 (amended) at text "password" and keyword "login". -/
theorem append_occurrence_nondecreasing_at_password :
    (("login".toList ∈ phishingKeywords) ∨ ("login".toList ∈ phishingPhrases))
      ∧ (evaluatePhishingContent ("password".toList)).1 < 100
      ∧ ((evaluatePhishingContent ("password".toList)).1
            ≤ (evaluatePhishingContent ("password".toList ++ "login".toList)).1
          ∧ (evaluatePhishingContent ("password".toList)).1
            ≤ (evaluatePhishingContent ("login".toList ++ "password".toList)).1) :=
  ⟨Or.inl (by decide), by decide,
    append_occurrence_nondecreasing ("password".toList) ("login".toList)
      (Or.inl (by decide)) (by decide)⟩

/-- Claim C8: the scorer is deterministic and pure — it is modelled as a
total function of its argument alone (the source reads only its parameter and
function-local constants), so identical inputs give identical outputs. -/
theorem scorer_deterministic (X : Option (List Char)) :
    evaluatePhishingContentJS X = evaluatePhishingContentJS X := rfl

/-- Claim C9: encode and decode called with an empty key fail with the
InvalidKey error and return no partial result. -/
theorem empty_key_fails_invalid_key (text : List Nat) (seq : List Char) :
    encode text [] = Except.error CodecError.InvalidKey
      ∧ decode seq [] = Except.error CodecError.InvalidKey :=
  ⟨rfl, rfl⟩

/-- Claim C10: the score is 0 exactly when the indicator list is empty. -/
theorem score_zero_iff_indicators_empty (text : List Char) :
    (evaluatePhishingContent text).1 = 0
      ↔ (evaluatePhishingContent text).2 = [] := by
  rw [evaluatePhishingContent_eq]
  constructor
  · intro h
    have hk : (matchedKeywords text).length = 0 := by omega
    have hp : (matchedPhrases text).length = 0 := by omega
    simp [allIndicators, List.length_eq_zero.mp hk, List.length_eq_zero.mp hp]
  · intro h
    have h0 : allIndicators text = [] := by
      rcases List.take_eq_nil_iff.mp h with h5 | h5
      · omega
      · exact h5
    have hkp : matchedKeywords text = [] ∧ matchedPhrases text = [] := by
      simpa [allIndicators] using h0
    simp [hkp.1, hkp.2]

end QuantumSecureDNA
